import Mathlib

/-!
Verification development for the súmula RAG repository.

The Python sources under `app/` are shallowly embedded below:

* `app/ingest/extract_text.py` — `process_pdf_file`, `create_collection_if_not_exists`,
  and the batch entry point `main` (here `ingest_main`);
* `app/graph/rag_graph.py` — `_format_filter_for_display`, `_format_docs`, the two graph
  nodes `retrieve` and `generate_stream`, `build_streaming_graph`, `COMPILED_GRAPH`
  and the event generator `run_streaming_rag`;
* `app/retrieval/retriever.py` — `SelfQueryConfig` and the top-k search behaviour of the
  self-query retriever.

External collaborators (the language model, the PDF-to-text converter, the vector store)
are passed in as explicit oracle data, so every definition is executable.
-/

/-- Decidable equality for `Except`, used to evaluate processing outcomes in closed
theorems. -/
instance {ε α : Type} [DecidableEq ε] [DecidableEq α] : DecidableEq (Except ε α)
  | .error e, .error e' =>
    if h : e = e' then .isTrue (by rw [h]) else .isFalse (by simp [h])
  | .error _, .ok _ => .isFalse (by simp)
  | .ok _, .error _ => .isFalse (by simp)
  | .ok a, .ok a' =>
    if h : a = a' then .isTrue (by rw [h]) else .isFalse (by simp [h])

namespace Rag

/-! ## Ingestion data model (`app/ingest/extract_text.py`) -/

/-- The value extracted for `metadados["data_status_ano"]` in the JSON returned by the
extraction model: a JSON number, a JSON string, or JSON null / absent
(`metadados.get("data_status_ano")` yields `None` in the last case). -/
inductive YearVal where
  | intVal (n : Int)
  | strVal (s : String)
  | nullVal
deriving DecidableEq, Repr

/-- Python whitespace stripping on a character list (both ends). -/
def pyStripChars (cs : List Char) : List Char :=
  ((cs.dropWhile Char.isWhitespace).reverse.dropWhile Char.isWhitespace).reverse

/-- Python `str.strip()` (whitespace, both ends). -/
def pyStrip (s : String) : String :=
  String.mk (pyStripChars s.toList)

/-- Auxiliary for Python `int(...)` on a decimal digit string. -/
def digitsToNat (cs : List Char) : Nat :=
  cs.foldl (fun a c => a * 10 + (c.toNat - 48)) 0

/-- Python `int(s)` on a string: optional surrounding whitespace, optional sign,
then a non-empty run of decimal digits; `none` models the raised `ValueError`.
(Digit-group underscores accepted by CPython are not modelled; all inputs used
in the theorems below are plain numerals or clearly non-numeric text.) -/
def pyIntOfString (s : String) : Option Int :=
  match pyStripChars s.toList with
  | [] => none
  | '+' :: rest =>
    if rest ≠ [] ∧ rest.all Char.isDigit then some (digitsToNat rest) else none
  | '-' :: rest =>
    if rest ≠ [] ∧ rest.all Char.isDigit then some (-(digitsToNat rest : Int)) else none
  | cs =>
    if cs.all Char.isDigit then some (digitsToNat cs) else none

/-- `int(metadados.get("data_status_ano"))`: succeeds on a JSON integer or a numeric
string, raises (`none`) on a non-numeric string or on `None`. -/
def coerceYear : YearVal → Option Int
  | .intVal n => some n
  | .strVal s => pyIntOfString s
  | .nullVal => none

/-- The `metadados` object of the parsed extraction JSON (`data.get("metadados", {})`);
each `.get(...)` is an optional field, except the year which is kept raw (see `YearVal`). -/
structure Metadados where
  num_sumula : Option String
  data_status : Option String
  data_status_ano : YearVal
  status_atual : Option String
  pdf_name : Option String
deriving DecidableEq, Repr

/-- The metadata dictionary built for one persisted chunk in `process_pdf_file`. -/
structure ChunkMeta where
  num_sumula : Option String
  data_status : Option String
  data_status_ano : Int
  status_atual : Option String
  pdf_name : String
  chunk_type : String
  chunk_index : Nat
deriving DecidableEq, Repr

/-- One element of the list returned by `process_pdf_file`:
`{"text": texto.strip(), "metadata": metadata}`. -/
structure ChunkRec where
  text : String
  metadata : ChunkMeta
deriving DecidableEq, Repr

/-- Python truthiness test `not texto` for a chunk value that is a string or JSON null:
falsy iff `None` or the empty string. -/
def pyFalsyStrOpt : Option String → Bool
  | none => true
  | some s => s = ""

/-- The chunk record built in the loop body of `process_pdf_file` for enumeration index
`idx`, chunk key `tipo`, chunk text `texto`, once `int(...)` returned `ano`. -/
def mkChunkRec (md : Metadados) (pdfName : String) (ano : Int)
    (tipo : String) (texto : Option String) (idx : Nat) : ChunkRec :=
  { text := pyStrip (texto.getD "")
    metadata :=
      { num_sumula := md.num_sumula
        data_status := md.data_status
        data_status_ano := ano
        status_atual := md.status_atual
        pdf_name := md.pdf_name.getD pdfName
        chunk_type := tipo
        chunk_index := idx } }

/-- The `for idx, (tipo, texto) in enumerate(chunks.items())` loop of `process_pdf_file`,
started at enumeration index `idx`.  `chunks` carries the dict items in insertion order.
`Except.error` models a Python exception escaping the loop (only `int(...)` on the year
can raise here); it aborts the whole loop, discarding every record built so far. -/
def buildChunksAux (md : Metadados) (pdfName : String) :
    Nat → List (String × Option String) → Except Unit (List ChunkRec)
  | _, [] => .ok []
  | idx, (tipo, texto) :: rest =>
    if pyFalsyStrOpt texto ∨ idx ≥ 3 then
      buildChunksAux md pdfName (idx + 1) rest
    else
      match coerceYear md.data_status_ano with
      | none => .error ()
      | some ano =>
        match buildChunksAux md pdfName (idx + 1) rest with
        | .error e => .error e
        | .ok tail => .ok (mkChunkRec md pdfName ano tipo texto idx :: tail)

/-- The `try:` body of `process_pdf_file` from the parsed JSON on: builds the chunk
records; an exception inside the loop is caught by the `except` clause, which logs and
returns the empty list. -/
def extractChunks (pdfName : String) (md : Metadados)
    (chunks : List (String × Option String)) : List ChunkRec :=
  match buildChunksAux md pdfName 0 chunks with
  | .error _ => []
  | .ok processed => processed

/-- Outcome of `embedder.llm.invoke(prompt)` followed by code-fence stripping and
`json.loads`: either some step raised (`raised`, caught by the `except` clause), or the
JSON parsed into `metadados` and the ordered `chunks` items. -/
inductive ExtractOutcome where
  | raised
  | parsed (md : Metadados) (chunks : List (String × Option String))

/-- `os.path.basename`: the final path component. -/
def basename (p : String) : String :=
  (p.splitOn "/").getLastD ""

/-- `PROMPT_EXTRACT.format(pdf_name=..., text_content=...)` from `app/graph/prompt.py`,
with the template's `{{`/`}}` escapes already collapsed to literal braces
(written `\x7b`/`\x7d`). -/
def PROMPT_EXTRACT_format (pdfName textContent : String) : String :=
  "\nVocê é um especialista jurídico do Tribunal de Contas de Minas Gerais.\nAnalise o texto abaixo e extraia:\n\n1️⃣ Metadados:\n- num_sumula: número da súmula (ex: 71)\n- data_status: última data (formato DD/MM/AA)\n- data_status_ano: última data (formato AAAA)\n- status_atual: último status (VIGENTE, REVOGADA, ALTERADA, etc.)\n- pdf_name: nome do arquivo PDF\n\n2️⃣ Chunks (máximo de 3):\n- conteudo_principal: texto vigente até antes de 'REFERÊNCIAS NORMATIVAS'\n- referencias_normativas: texto após 'REFERÊNCIAS NORMATIVAS:' até antes de 'PRECEDENTES:'\n- precedentes: texto após 'PRECEDENTES:' até o final\n\nRetorne **somente** um JSON no formato:\n\x7b\n  \"metadados\": \x7b\n    \"num_sumula\": \"...\",\n    \"data_status\": \"...\",\n    \"data_status_ano\": \"...\",\n    \"status_atual\": \"...\",\n    \"pdf_name\": \"" ++
    pdfName ++
    "\"\n  \x7d,\n  \"chunks\": \x7b\n    \"conteudo_principal\": \"...\",\n    \"referencias_normativas\": \"...\",\n    \"precedentes\": \"...\"\n  \x7d\n\x7d\n\nTexto da súmula:\n" ++
    textContent ++ "\n"

/-- One source document presented to the batch: its path, the outcome of
`md.convert(file_path)` (`.error` models a raised conversion error, `.ok none` a `None`
`text_content`), and the extraction model's behaviour as a function of the prompt. -/
structure FileSpec where
  name : String
  conv : Except Unit (Option String)
  extract : String → ExtractOutcome

/-- `True` iff the conversion step of this file would succeed. -/
def FileSpec.convOk (f : FileSpec) : Bool :=
  match f.conv with
  | .ok _ => true
  | .error _ => false

/-- `process_pdf_file` of `app/ingest/extract_text.py`.  Note that
`md.convert(str(file_path))` is evaluated *outside* the `try:` block, so a conversion
failure propagates to the caller (`.error`), while every failure from `llm.invoke`
onwards is caught and turned into the empty list. -/
def process_pdf_file (f : FileSpec) : Except Unit (List ChunkRec) :=
  let pdfName := basename f.name
  match f.conv with
  | .error e => .error e
  | .ok textOpt =>
    let text_content := textOpt.getD ""
    match f.extract (PROMPT_EXTRACT_format pdfName (text_content.take 12000)) with
    | .raised => .ok []
    | .parsed md chunks => .ok (extractChunks pdfName md chunks)

/-! ## Qdrant collection setup (`create_collection_if_not_exists`) -/

/-- `qdrant_client.http.models.Distance` (only the members relevant here). -/
inductive QDistance where
  | cosine
  | dot
  | euclid
deriving DecidableEq, Repr

/-- `VectorParams(size=..., distance=...)`. -/
structure DenseParams where
  size : Nat
  distance : QDistance
deriving DecidableEq, Repr

/-- The configuration a collection is created with: named dense vector spaces and named
sparse vector spaces (`SparseVectorParams()` carries no size). -/
structure CollectionCfg where
  vectors_config : List (String × DenseParams)
  sparse_vectors_config : List String
deriving DecidableEq, Repr

/-- The Qdrant server's collections, as an association list in creation order. -/
abbrev QdrantState := List (String × CollectionCfg)

/-- `client.collection_exists(collection_name=...)`. -/
def collection_exists (s : QdrantState) (n : String) : Bool :=
  s.any (fun p => p.1 == n)

/-- The configuration passed to `client.create_collection` in
`create_collection_if_not_exists`: one dense space `"text-dense"` sized by the embedding
model with cosine distance, one sparse space `"text-sparse"`. -/
def sumulasCfg (embDim : Nat) : CollectionCfg :=
  { vectors_config := [("text-dense", { size := embDim, distance := .cosine })]
    sparse_vectors_config := ["text-sparse"] }

/-- `create_collection_if_not_exists(embedder, collection)`: a no-op when the collection
exists, otherwise creates it (`client.create_collection` is modelled as appending the
new collection; it could only fail on an existing name, which the guard precludes).
`embDim` stands for `embedder.model.model.embedding_size`. -/
def create_collection_if_not_exists (embDim : Nat) (s : QdrantState)
    (collection : String) : QdrantState :=
  if collection_exists s collection then s
  else s ++ [(collection, sumulasCfg embDim)]

/-! ## Batch ingestion (`main` of `app/ingest/extract_text.py`) -/

/-- One `vector_store.add_texts(texts=..., metadatas=...)` call. -/
structure WriteOp where
  collection : String
  texts : List String
  metadatas : List ChunkMeta
deriving DecidableEq, Repr

/-- Observable outcome of the ingestion batch: the writes performed in order, the
`total_chunks` counter, and whether the loop ran to completion (`false` when an
uncaught exception aborted it). -/
structure IngestResult where
  writes : List WriteOp
  totalChunks : Nat
  completed : Bool
deriving DecidableEq, Repr

/-- The `for pdf_file in pdf_files:` loop of `main`.  A `.error` from
`process_pdf_file` is an uncaught exception: the loop stops there, keeping the writes
already performed.  An empty chunk list (`if not chunks: continue`) skips the file
without writing. -/
def ingestLoop (collection : String) :
    List FileSpec → List WriteOp → Nat → IngestResult
  | [], ws, n => { writes := ws, totalChunks := n, completed := true }
  | f :: rest, ws, n =>
    match process_pdf_file f with
    | .error _ => { writes := ws, totalChunks := n, completed := false }
    | .ok [] => ingestLoop collection rest ws n
    | .ok chunks =>
      ingestLoop collection rest
        (ws ++ [{ collection := collection
                  texts := chunks.map (·.text)
                  metadatas := chunks.map (·.metadata) }])
        (n + chunks.length)

/-- The write `main` would perform for one file, if any: `none` when the file's
processing raises or yields no chunks. -/
def writeOfFile (collection : String) (f : FileSpec) : Option WriteOp :=
  match process_pdf_file f with
  | .error _ => none
  | .ok [] => none
  | .ok chunks =>
    some { collection := collection
           texts := chunks.map (·.text)
           metadatas := chunks.map (·.metadata) }

/-- `main(collection, pasta_pdfs)`: ensures the collection exists, then processes the
folder's files (given here as `files`, in glob order); with no files it logs and
returns early. -/
def ingest_main (embDim : Nat) (qdrant : QdrantState) (collection : String)
    (files : List FileSpec) : QdrantState × IngestResult :=
  let qdrant' := create_collection_if_not_exists embDim qdrant collection
  if files.isEmpty then (qdrant', { writes := [], totalChunks := 0, completed := true })
  else (qdrant', ingestLoop collection files [] 0)

/-! ## Structured-query filters and `_format_filter_for_display`
(`app/graph/rag_graph.py`)

`structured_query.filter` is an object of the retrieval library.  Its string form
`str(filter_obj)` is modelled in exactly the operator-object notation the source's
rewrite patterns target: `Comparator(attribute='a', operator=<Comparator.EQ: 'eq'>,
value='v')` for comparisons and `Operation(operator=<Operator.AND: 'and'>,
arguments=[...])` for boolean operations. -/

/-- A comparison operator of the structured-query language. -/
inductive CmpOp where
  | eq
  | lt
  | gt
  | lte
  | gte
deriving DecidableEq, Repr

/-- Enum-member name of a comparator, as printed inside `<Comparator.XX: 'xx'>`. -/
def cmpOpUpper : CmpOp → String
  | .eq => "EQ"
  | .lt => "LT"
  | .gt => "GT"
  | .lte => "LTE"
  | .gte => "GTE"

/-- Enum-member value of a comparator. -/
def cmpOpLower : CmpOp → String
  | .eq => "eq"
  | .lt => "lt"
  | .gt => "gt"
  | .lte => "lte"
  | .gte => "gte"

/-- One comparison clause of a structured-query filter; `attr` is the library's
`attribute` field (a Lean keyword). -/
structure FilterComparison where
  attr : String
  comparator : CmpOp
  value : String
deriving DecidableEq, Repr

/-- A boolean connective of the structured-query language. -/
inductive LogicalOp where
  | andOp
  | orOp
  | notOp
deriving DecidableEq, Repr

/-- Enum-member name of a connective, as printed inside `<Operator.AND: 'and'>`. -/
def logicalOpUpper : LogicalOp → String
  | .andOp => "AND"
  | .orOp => "OR"
  | .notOp => "NOT"

/-- Enum-member value of a connective. -/
def logicalOpLower : LogicalOp → String
  | .andOp => "and"
  | .orOp => "or"
  | .notOp => "not"

/-- A structured-query filter: a comparison, or a boolean operation over comparison
clauses.  (The library type allows arbitrary nesting of operations; the query
translator for this schema produces either one comparison or one connective over
comparisons, which is the shape modelled here.) -/
inductive FilterExpr where
  | comparison (c : FilterComparison)
  | operation (op : LogicalOp) (args : List FilterComparison)
deriving DecidableEq, Repr

/-- `str(...)` of one comparison, in the notation the source's second rewrite
pattern targets. -/
def reprComparison (c : FilterComparison) : String :=
  "Comparator(attribute='" ++ c.attr ++ "', operator=<Comparator." ++
    cmpOpUpper c.comparator ++ ": '" ++ cmpOpLower c.comparator ++ "'>, value='" ++
    c.value ++ "')"

/-- The opening of `str(...)` of an operation, up to and including `arguments=`;
this is what the source's first rewrite pattern removes. -/
def operationHead (op : LogicalOp) : String :=
  "Operation(operator=<Operator." ++ logicalOpUpper op ++ ": '" ++
    logicalOpLower op ++ "'>, arguments="

/-- The `", "`-joined reprs of a Python list's items (`str` of a list renders
`[item, item, ...]`). -/
def reprArgsJoin : List FilterComparison → String
  | [] => ""
  | [c] => reprComparison c
  | c :: rest => reprComparison c ++ ", " ++ reprArgsJoin rest

/-- `str(filter_obj)` for a whole filter. -/
def reprFilter : FilterExpr → String
  | .comparison c => reprComparison c
  | .operation op args => operationHead op ++ "[" ++ reprArgsJoin args ++ "])"

/-! The two `re.sub` calls of `_format_filter_for_display` are implemented as
left-to-right scanners over the character list.  Lazy groups (`.*?`) are matched
without backtracking: the scan stops at the first admissible terminator, which agrees
with the regex wherever the captured text contains no apostrophe (the situation of
every theorem below). -/

/-- Match a literal pattern at the head of the input, returning the rest. -/
def matchLit : List Char → List Char → Option (List Char)
  | [], s => some s
  | _ :: _, [] => none
  | p :: ps, d :: s => if p = d then matchLit ps s else none

/-- Consume up to and including the first `>` (the lazy `.*?>` of both patterns). -/
def takeToGt : List Char → Option (List Char)
  | [] => none
  | c :: s => if c = '>' then some s else takeToGt s

/-- Is this one of the characters matched by the regex class `\s`? -/
def isWsChar (c : Char) : Bool :=
  c = ' ' ∨ c = '\t' ∨ c = '\n' ∨ c = '\r'

/-- Consume the `\s*` of both patterns. -/
def dropWs : List Char → List Char
  | [] => []
  | c :: s => if isWsChar c then dropWs s else c :: s

/-- The lazy capture `(.*?)'` of the attribute: text up to the first apostrophe,
returning the capture and the rest after the apostrophe. -/
def takeUntilQuote : List Char → Option (List Char × List Char)
  | [] => none
  | c :: s =>
    if c = '\'' then some ([], s)
    else (takeUntilQuote s).map (fun p => (c :: p.1, p.2))

/-- The lazy capture `(.*?)'\)` of the value: text up to the first `')`,
returning the capture and the rest after the `')`. -/
def takeUntilQuoteParen : List Char → Option (List Char × List Char)
  | [] => none
  | c :: s =>
    if c = '\'' ∧ s.head? = some ')' then some ([], s.tail)
    else (takeUntilQuoteParen s).map (fun p => (c :: p.1, p.2))

/-- The fixed head of the first rewrite pattern
`Operation\(operator=<Operator\..*?>,\s*arguments=`. -/
def opHeadPat : List Char := "Operation(operator=<Operator.".toList

/-- The fixed head of the second rewrite pattern
`Comparator\(attribute='(.*?)',\s*operator=<Comparator\..*?>,\s*value='(.*?)'\)`. -/
def cmpHeadPat : List Char := "Comparator(attribute='".toList

/-- Match the first rewrite pattern at the head of the input. -/
def matchOperationHead (s : List Char) : Option (List Char) :=
  (matchLit opHeadPat s).bind fun s1 =>
  (takeToGt s1).bind fun s2 =>
  (matchLit [ ',' ] s2).bind fun s3 =>
  matchLit "arguments=".toList (dropWs s3)

/-- Match the second rewrite pattern at the head of the input, returning the two
captures (attribute, value) and the rest. -/
def matchComparisonAt (s : List Char) : Option (List Char × List Char × List Char) :=
  (matchLit cmpHeadPat s).bind fun s1 =>
  (takeUntilQuote s1).bind fun p1 =>
  (matchLit [ ',' ] p1.2).bind fun s3 =>
  (matchLit "operator=<Comparator.".toList (dropWs s3)).bind fun s4 =>
  (takeToGt s4).bind fun s5 =>
  (matchLit [ ',' ] s5).bind fun s6 =>
  (matchLit "value='".toList (dropWs s6)).bind fun s7 =>
  (takeUntilQuoteParen s7).map fun p2 => (p1.1, p2.1, p2.2)

/-- Canonical decomposition of a comparison repr from the value part on, used by the
scanner-correctness lemmas. -/
def valTail (val rest : List Char) : List Char :=
  "value='".toList ++ (val ++ ('\'' :: ')' :: rest))

/-- Canonical decomposition of a comparison repr from the operator part on. -/
def midTail (mid val rest : List Char) : List Char :=
  "operator=<Comparator.".toList ++ (mid ++ ('>' :: (',' :: (' ' :: valTail val rest))))

/-- Canonical decomposition of a whole comparison repr followed by `rest`. -/
def cmpCanonical (attr mid val rest : List Char) : List Char :=
  cmpHeadPat ++ (attr ++ ('\'' :: (',' :: (' ' :: midTail mid val rest))))

/-- Fuel-driven scan for `re.sub(r"Operation\(...\..*?>,\s*arguments=", "", raw_str)`:
each occurrence of the pattern is removed, everything else passes through.  The fuel
only forces structural termination; with `fuel ≥` input length the `0` case is
unreachable. -/
def stripOperationHeadsFuel : Nat → List Char → List Char
  | 0, s => s
  | _ + 1, [] => []
  | fuel + 1, c :: s =>
    match matchOperationHead (c :: s) with
    | some rest => stripOperationHeadsFuel fuel rest
    | none => c :: stripOperationHeadsFuel fuel s

/-- The first `re.sub` of `_format_filter_for_display`. -/
def stripOperationHeads (s : List Char) : List Char :=
  stripOperationHeadsFuel s.length s

/-- Fuel-driven scan for
`re.sub(r"Comparator\(attribute='(.*?)',...value='(.*?)'\)", r"\1 = '\2'", raw_str)`:
each occurrence is replaced by `attr = 'value'`, everything else passes through. -/
def rewriteComparisonsFuel : Nat → List Char → List Char
  | 0, s => s
  | _ + 1, [] => []
  | fuel + 1, c :: s =>
    match matchComparisonAt (c :: s) with
    | some (attr, val, rest) =>
      attr ++ " = '".toList ++ val ++ '\'' :: rewriteComparisonsFuel fuel rest
    | none => c :: rewriteComparisonsFuel fuel s

/-- The second `re.sub` of `_format_filter_for_display`. -/
def rewriteComparisons (s : List Char) : List Char :=
  rewriteComparisonsFuel s.length s

/-- `raw_str.replace(x, "")` for a single character `x`. -/
def removeChar (x : Char) (s : List Char) : List Char :=
  s.filter (fun c => c ≠ x)

/-- `raw_str.replace("),", " E ")`: left-to-right, non-overlapping. -/
def replaceParenComma : List Char → List Char
  | [] => []
  | [c] => [c]
  | c :: d :: s =>
    if c = ')' ∧ d = ',' then ' ' :: 'E' :: ' ' :: replaceParenComma s
    else c :: replaceParenComma (d :: s)

/-- Is this a character of the strip set `"()"`? -/
def isParenChar (c : Char) : Bool :=
  c = '(' ∨ c = ')'

/-- `raw_str.strip("()")`: remove leading and trailing parentheses. -/
def stripParens (s : List Char) : List Char :=
  ((s.dropWhile isParenChar).reverse.dropWhile isParenChar).reverse

/-- The successive transformations `_format_filter_for_display` applies to
`str(filter_obj)`: the two pattern rewrites, bracket removal, the `"),"` → `" E "`
replacement, and the outer-parenthesis strip. -/
def displayPipeline (f : FilterExpr) : List Char :=
  stripParens (replaceParenComma (removeChar ']' (removeChar '['
    (rewriteComparisons (stripOperationHeads (reprFilter f).toList)))))

/-- `_format_filter_for_display(filter_obj)` of `app/graph/rag_graph.py`:
`None` (falsy) gives the sentinel, otherwise the repr string is rewritten through the
pipeline above, and an empty result falls back to the sentinel. -/
def _format_filter_for_display (filterObj : Option FilterExpr) : String :=
  match filterObj with
  | none => "Nenhum filtro aplicado."
  | some f =>
    if displayPipeline f = [] then "Nenhum filtro aplicado."
    else String.mk (displayPipeline f)

/-- `true` iff the literal pattern matches at no (non-empty) suffix of the input,
i.e. it does not occur in the input. -/
def noLit (pat : List Char) : List Char → Bool
  | [] => true
  | c :: s => !(matchLit pat (c :: s)).isSome && noLit pat s

/-- The display form of one comparison that the spec prescribes: `field = 'value'`. -/
def renderComparison (c : FilterComparison) : String :=
  c.attr ++ " = '" ++ c.value ++ "'"

/-- The spec-side rendering of a clause list: comparisons as `field = 'value'`,
joined by the separator the code actually leaves between clauses. -/
def displayClauses : List FilterComparison → String
  | [] => ""
  | [c] => renderComparison c
  | c :: rest => renderComparison c ++ ", " ++ displayClauses rest

/-- Attribute/value strings free of the characters the display pipeline treats
specially (apostrophes end the lazy captures; parentheses and brackets are removed or
stripped).  On such strings the non-backtracking scanners agree with the regexes. -/
def cleanStr (s : String) : Bool :=
  s.toList.all fun c => c ≠ '\'' && c ≠ '(' && c ≠ ')' && c ≠ '[' && c ≠ ']'

/-! ## Query pipeline (`app/graph/rag_graph.py`, `app/retrieval/retriever.py`) -/

/-- Metadata payload of a retrieved document; `d.metadata.get(key)` is the
corresponding optional field. -/
structure DocMetadata where
  pdf_name : Option String
  data_status : Option String
  data_status_ano : Option Int
  status_atual : Option String
  num_sumula : Option String
  chunk_type : Option String
  chunk_index : Option Nat
deriving DecidableEq, Repr

/-- A retrieved `langchain_core.documents.Document`. -/
structure Doc where
  page_content : String
  metadata : DocMetadata
deriving DecidableEq, Repr

/-- A document metadata record with every field absent. -/
def emptyDocMetadata : DocMetadata :=
  { pdf_name := none, data_status := none, data_status_ano := none,
    status_atual := none, num_sumula := none, chunk_type := none, chunk_index := none }

/-- The structured query produced by `retriever.query_constructor.invoke`:
semantic text, optional filter, and the optional limit of `enable_limit=True`. -/
structure StructuredQueryM where
  query : String
  filter : Option FilterExpr
  limit : Option Nat

/-- `SelfQueryConfig` of `app/retrieval/retriever.py`, with its field defaults. -/
structure SelfQueryConfig where
  collection_name : String := "sumulas_jornada"
  k : Nat := 10

/-- The external collaborators of one query: the query-constructor model, the
vector store's filtered relevance ranking (per collection), and the QA chain's token
stream as a function of question and rendered context. -/
structure QueryOracle where
  constructQuery : String → StructuredQueryM
  searchRanked : String → String → Option FilterExpr → List Doc
  generateTokens : String → String → List String

/-- The dictionary returned by the `retrieve` node. -/
structure RetrieveOutput where
  docs : List Doc
  generated_query : String
  generated_filter : String
deriving DecidableEq, Repr

/-- The `retrieve` node: runs the query constructor, executes the self-query retriever
(`search_kwargs={"k": cfg.k}`, so the ranked results are cut to `k`, or to the
limit the constructor produced under `enable_limit=True`), and formats the filter for
display.  The Python defaults are `collection_name="sumulas_jornada"`, `k=10`. -/
def retrieve (o : QueryOracle) (question : String)
    (collection_name : String := "sumulas_jornada") (k : Nat := 10) : RetrieveOutput :=
  let cfg : SelfQueryConfig := { collection_name := collection_name, k := k }
  let sq := o.constructQuery question
  let docs :=
    (o.searchRanked cfg.collection_name sq.query sq.filter).take (sq.limit.getD cfg.k)
  { docs := docs
    generated_query := sq.query
    generated_filter := _format_filter_for_display sq.filter }

/-- `_format_docs(docs)`: one block per document — a header with source file, súmula
number, chunk type, status and date, then the literal content — joined by the fixed
delimiter. -/
def _format_docs (docs : List Doc) : String :=
  String.intercalate "\n\n---\n\n" (docs.map (fun d =>
    "[" ++ d.metadata.pdf_name.getD "?" ++ " | Súmula " ++
      d.metadata.num_sumula.getD "?" ++ " | " ++ d.metadata.chunk_type.getD "chunk" ++
      "]" ++ "\nstatus_atual: " ++ d.metadata.status_atual.getD "não informado" ++
      "\ndata_status: " ++ d.metadata.data_status.getD "não informado" ++
      "\n\n" ++ d.page_content))

/-- The `generate` node (`generate_stream`): renders the context from
`state.get("docs", [])` and streams the QA chain on question and context.  The
returned list is the lazy token stream, in generation order. -/
def generate_stream (o : QueryOracle) (question : String) (docs : List Doc) :
    List String :=
  o.generateTokens question (_format_docs docs)

/-- One event of `COMPILED_GRAPH.stream(...)`: an update from the `retrieve` node, an
update from the `generate` node, or the final `END` state (whose only field read later
is `docs`). -/
inductive GraphEvent where
  | retrieveEv (out : RetrieveOutput)
  | generateEv (answer : List String)
  | endEv (docs : List Doc)
deriving DecidableEq, Repr

/-- `build_streaming_graph(collection_name, k)`: the compiled two-node linear graph
`retrieve → generate → END`, as the stream of events its execution yields for a
question.  The Python defaults are `collection_name="sumulas_jornada"`, `k=5`. -/
def build_streaming_graph (o : QueryOracle)
    (collection_name : String := "sumulas_jornada") (k : Nat := 5) :
    String → List GraphEvent :=
  fun question =>
    let r := retrieve o question collection_name k
    let ans := generate_stream o question r.docs
    [.retrieveEv r, .generateEv ans, .endEv r.docs]

/-- `COMPILED_GRAPH = build_streaming_graph()` — the module-level compiled graph the
query entry point uses, built with both defaults. -/
def COMPILED_GRAPH (o : QueryOracle) : String → List GraphEvent :=
  build_streaming_graph o

/-- One entry of the `sources` payload built in `run_streaming_rag`. -/
structure SourceEntry where
  pdf_name : Option String
  data_status : Option String
  data_status_ano : Option Int
  status_atual : Option String
  num_sumula : Option String
  chunk_type : Option String
deriving DecidableEq, Repr

/-- The dictionary built from one document for the `sources` event. -/
def sourceOfDoc (d : Doc) : SourceEntry :=
  { pdf_name := d.metadata.pdf_name
    data_status := d.metadata.data_status
    data_status_ano := d.metadata.data_status_ano
    status_atual := d.metadata.status_atual
    num_sumula := d.metadata.num_sumula
    chunk_type := d.metadata.chunk_type }

/-- An event yielded to the frontend by `run_streaming_rag`. -/
inductive Event where
  | details (query : String) (filterStr : String)
  | token (data : String)
  | sources (data : List SourceEntry)
deriving DecidableEq, Repr

/-- The events yielded inside the `for event in COMPILED_GRAPH.stream(...)` loop for
one graph event: a `details` event for a `retrieve` update, one `token` event per
streamed token for a `generate` update, nothing for `END`. -/
def processGraphEvent : GraphEvent → List Event
  | .retrieveEv out => [.details out.generated_query out.generated_filter]
  | .generateEv ans => ans.map Event.token
  | .endEv _ => []

/-- The `final_state` tracking of the loop: starts as `{}` (no docs) and is overwritten
by each `END` event. -/
def finalDocsAux (acc : List Doc) : List GraphEvent → List Doc
  | [] => acc
  | .endEv ds :: rest => finalDocsAux ds rest
  | _ :: rest => finalDocsAux acc rest

/-- `run_streaming_rag(question)`: streams the compiled graph, yielding the per-event
items in order, and finally yields the single `sources` event built from
`final_state.get("docs", [])`. -/
def run_streaming_rag (o : QueryOracle) (question : String) : List Event :=
  let events := COMPILED_GRAPH o question
  (events.map processGraphEvent).flatten ++
    [.sources ((finalDocsAux [] events).map sourceOfDoc)]

/-! ## Concrete instances used in closed theorems -/

/-- A placeholder retrieved document with numbered content and empty metadata. -/
def mkNumberedDoc (i : Nat) : Doc :=
  { page_content := toString i, metadata := emptyDocMetadata }

/-- An oracle whose vector store ranks 12 candidate documents for any query and whose
query constructor produces no filter and no limit. -/
def oracle12 : QueryOracle :=
  { constructQuery := fun q => { query := q, filter := none, limit := none }
    searchRanked := fun _ _ _ => (List.range 12).map mkNumberedDoc
    generateTokens := fun _ _ => ["ok"] }

/-- An oracle whose vector store matches nothing. -/
def emptyOracle : QueryOracle :=
  { constructQuery := fun q => { query := q, filter := none, limit := none }
    searchRanked := fun _ _ _ => []
    generateTokens := fun _ _ => ["Não", " encontrei."] }

/-- Well-formed extracted metadata with a numeric year. -/
def mdSumula70 : Metadados :=
  { num_sumula := some "70", data_status := some "07/04/14",
    data_status_ano := .intVal 2014, status_atual := some "VIGENTE", pdf_name := none }

/-- Extracted metadata whose year field is the non-numeric string `"VIGENTE"`. -/
def mdBadYear : Metadados :=
  { num_sumula := some "74", data_status := some "07/04/14",
    data_status_ano := .strVal "VIGENTE", status_atual := some "VIGENTE",
    pdf_name := none }

/-- A file that converts and extracts cleanly into one chunk. -/
def fileOk1 : FileSpec :=
  { name := "sumulas/Sumula_70.pdf", conv := .ok (some "SUMULA 70 texto")
    extract := fun _ =>
      .parsed mdSumula70 [("conteudo_principal", some "texto da sumula 70")] }

/-- A file whose `md.convert` raises. -/
def fileConvFails : FileSpec :=
  { name := "sumulas/corrompida.pdf", conv := .error (), extract := fun _ => .raised }

/-- Another cleanly-processing file, queued after the failing one. -/
def fileOk2 : FileSpec :=
  { name := "sumulas/Sumula_71.pdf", conv := .ok (some "SUMULA 71 texto")
    extract := fun _ =>
      .parsed mdSumula70 [("conteudo_principal", some "texto da sumula 71")] }

/-- A file that converts but whose extraction output fails to parse. -/
def fileParseFails : FileSpec :=
  { name := "sumulas/Sumula_72.pdf", conv := .ok (some "SUMULA 72 texto")
    extract := fun _ => .raised }

/-- Five proposed chunks of which the first is empty. -/
def chunksFirstEmpty : List (String × Option String) :=
  [("conteudo_principal", some ""), ("referencias_normativas", some "refs"),
   ("precedentes", some "precs"), ("anexo_a", some "anexo a"),
   ("anexo_b", some "anexo b")]

/-- A file whose extraction proposes `chunksFirstEmpty` with good metadata. -/
def fileFirstEmpty : FileSpec :=
  { name := "sumulas/Sumula_73.pdf", conv := .ok (some "SUMULA 73 texto")
    extract := fun _ => .parsed mdSumula70 chunksFirstEmpty }

/-- Three present, non-empty chunks. -/
def chunksThree : List (String × Option String) :=
  [("conteudo_principal", some "conteudo"), ("referencias_normativas", some "refs"),
   ("precedentes", some "precs")]

/-- A file with three non-empty chunks but a non-numeric year in the metadata. -/
def fileBadYear : FileSpec :=
  { name := "sumulas/Sumula_74.pdf", conv := .ok (some "SUMULA 74 texto")
    extract := fun _ => .parsed mdBadYear chunksThree }

/-- Four non-empty proposed chunks with good metadata. -/
def chunksFour : List (String × Option String) :=
  [("conteudo_principal", some "conteudo"), ("referencias_normativas", some "refs"),
   ("precedentes", some "precs"), ("anexo_extra", some "anexo")]

/-- A two-clause conjunction filter, as the query translator produces for a question
constraining status and year. -/
def twoClauses : List FilterComparison :=
  [⟨"status_atual", .eq, "VIGENTE"⟩, ⟨"data_status_ano", .eq, "2014"⟩]

/-- A single-comparison filter. -/
def singleClause : FilterComparison := ⟨"num_sumula", .eq, "70"⟩

/-- The three records the chunk loop persists from `chunksFour`. -/
def resThree : List ChunkRec :=
  [mkChunkRec mdSumula70 "Sumula_70.pdf" 2014 "conteudo_principal" (some "conteudo") 0,
   mkChunkRec mdSumula70 "Sumula_70.pdf" 2014 "referencias_normativas" (some "refs") 1,
   mkChunkRec mdSumula70 "Sumula_70.pdf" 2014 "precedentes" (some "precs") 2]

/-! ## Theorems -/

/-- After `create_collection_if_not_exists`, the collection exists. -/
theorem collection_exists_after_create (embDim : Nat) (s : QdrantState) (c : String) :
    collection_exists (create_collection_if_not_exists embDim s c) c = true := by
  unfold create_collection_if_not_exists
  split
  · assumption
  · simp [collection_exists]

/-- C9: collection setup is idempotent — a second invocation of
`create_collection_if_not_exists` for the same name is a no-op (hence never errors and
leaves the dense/sparse vector-space configuration unchanged); more generally the
function is the identity on any state in which the collection already exists. -/
theorem c9_idempotent_collection_creation (embDim : Nat) (s : QdrantState) (c : String) :
    create_collection_if_not_exists embDim
        (create_collection_if_not_exists embDim s c) c =
      create_collection_if_not_exists embDim s c ∧
    (∀ s' : QdrantState, collection_exists s' c = true →
      create_collection_if_not_exists embDim s' c = s') := by
  have hid : ∀ s' : QdrantState, collection_exists s' c = true →
      create_collection_if_not_exists embDim s' c = s' := by
    intro s' h
    simp [create_collection_if_not_exists, h]
  exact ⟨hid _ (collection_exists_after_create embDim s c), hid⟩

/-- C10: the `details` event's filter field is `_format_filter_for_display` of the
constructed filter; an absent filter (and an empty conjunction) is displayed as the
sentinel `"Nenhum filtro aplicado."`, and the displayed filter string is never empty. -/
theorem c10_filter_sentinel :
    (∀ (o : QueryOracle) (question collection_name : String) (k : Nat),
      (retrieve o question collection_name k).generated_filter =
        _format_filter_for_display (o.constructQuery question).filter) ∧
    _format_filter_for_display none = "Nenhum filtro aplicado." ∧
    _format_filter_for_display (some (.operation .andOp [])) = "Nenhum filtro aplicado." ∧
    (∀ filterObj : Option FilterExpr, _format_filter_for_display filterObj ≠ "") := by
  refine ⟨fun o question collection_name k => rfl, rfl, by decide, ?_⟩
  intro filterObj
  cases filterObj with
  | none => decide
  | some f =>
    by_cases h : displayPipeline f = []
    · simp [_format_filter_for_display, h]
    · simp only [_format_filter_for_display, h, if_false]
      intro hc
      rw [String.ext_iff] at hc
      exact h hc

/-- C1: for every query, `run_streaming_rag` emits exactly one `details` event (from
the retrieval update), then the generated tokens in order as `token` events, then
exactly one final `sources` event; in particular the `sources` event comes only after
the token sequence is exhausted. -/
theorem c1_streaming_order (o : QueryOracle) (question : String) :
    run_streaming_rag o question =
      Event.details (retrieve o question "sumulas_jornada" 5).generated_query
          (retrieve o question "sumulas_jornada" 5).generated_filter ::
        ((generate_stream o question (retrieve o question "sumulas_jornada" 5).docs).map
            Event.token ++
          [Event.sources
            ((retrieve o question "sumulas_jornada" 5).docs.map sourceOfDoc)]) := by
  simp [run_streaming_rag, COMPILED_GRAPH, build_streaming_graph, processGraphEvent,
    finalDocsAux]

/-- C8: the text given to the extraction model is exactly the first 12,000 characters
of the converted text (all of it when shorter), so processing two documents whose
conversions agree on that prefix is identical — content beyond the cap is never used
for metadata extraction or chunk splitting. -/
theorem c8_extraction_prefix_cap :
    (∀ (nm : String) (ex : String → ExtractOutcome) (t₁ t₂ : String),
      t₁.take 12000 = t₂.take 12000 →
        process_pdf_file ⟨nm, .ok (some t₁), ex⟩ =
          process_pdf_file ⟨nm, .ok (some t₂), ex⟩) ∧
    (∀ t : String, t.length ≤ 12000 → t.take 12000 = t) := by
  constructor
  · intro nm ex t₁ t₂ h
    simp only [process_pdf_file, Option.getD]
    rw [h]
  · intro t h
    rw [String.take_eq]
    rw [String.ext_iff]
    exact List.take_of_length_le h

/-- Witness for C8 at a concrete file. -/
theorem c8_extraction_prefix_cap_witness :
    ("Texto da súmula 70." : String).take 12000 = ("Texto da súmula 70." : String).take 12000 ∧
    ("abc" : String).length ≤ 12000 ∧
    process_pdf_file ⟨"sumulas/Sumula_70.pdf", .ok (some "Texto da súmula 70."),
        fun _ => .raised⟩ =
      process_pdf_file ⟨"sumulas/Sumula_70.pdf", .ok (some "Texto da súmula 70."),
        fun _ => .raised⟩ ∧
    ("abc" : String).take 12000 = "abc" :=
  ⟨rfl, by decide,
    c8_extraction_prefix_cap.1 "sumulas/Sumula_70.pdf" (fun _ => .raised)
      "Texto da súmula 70." "Texto da súmula 70." rfl,
    c8_extraction_prefix_cap.2 "abc" (by decide)⟩

/-- C4 counterexample: the public query entry point does not retrieve with `k = 10`.
With 12 ranked candidates and no constructor limit, the compiled graph's retrieval
keeps 5 documents, not 10 — `COMPILED_GRAPH = build_streaming_graph()` and
`build_streaming_graph`'s own default is `k = 5`. -/
theorem c4_counterexample_entry_point_k_is_5 :
    (oracle12.searchRanked "sumulas_jornada" "quais sumulas" none).length = 12 ∧
    (finalDocsAux [] (COMPILED_GRAPH oracle12 "quais sumulas")).length = 5 ∧
    ¬(finalDocsAux [] (COMPILED_GRAPH oracle12 "quais sumulas")).length = 10 := by
  refine ⟨by decide, by decide, by decide⟩

/-- C4 amended: the retrieval step returns the top-`k` ranked chunks for a
caller-supplied `k`; `SelfQueryConfig` and the `retrieve` node both default `k` to 10,
but the public entry point's graph is built by `build_streaming_graph`, whose own
default is `k = 5`, so the entry point (which supplies no explicit `k`) retrieves with
`k = 5`. -/
theorem c4_top_k_defaults :
    (∀ (o : QueryOracle) (question collection_name : String) (k : Nat),
      (retrieve o question collection_name k).docs =
        (o.searchRanked collection_name (o.constructQuery question).query
            (o.constructQuery question).filter).take
          ((o.constructQuery question).limit.getD k)) ∧
    ({} : SelfQueryConfig).k = 10 ∧
    ({} : SelfQueryConfig).collection_name = "sumulas_jornada" ∧
    (∀ (o : QueryOracle) (question : String),
      retrieve o question = retrieve o question "sumulas_jornada" 10) ∧
    (∀ o : QueryOracle, build_streaming_graph o = build_streaming_graph o "sumulas_jornada" 5) ∧
    (∀ (o : QueryOracle) (question : String),
      COMPILED_GRAPH o question = build_streaming_graph o "sumulas_jornada" 5 question) :=
  ⟨fun _ _ _ _ => rfl, rfl, rfl, fun _ _ => rfl, fun _ => rfl, fun _ _ => rfl⟩

/-- C6: when retrieval returns zero documents, the pipeline still runs generation to
completion — the context block is `_format_docs [] = ""` and the QA chain is invoked
on it through the same unconditional code path — and the final `sources` event carries
the empty list. -/
theorem c6_empty_retrieval_safety (o : QueryOracle) (question : String)
    (h : (retrieve o question "sumulas_jornada" 5).docs = []) :
    run_streaming_rag o question =
      Event.details (retrieve o question "sumulas_jornada" 5).generated_query
          (retrieve o question "sumulas_jornada" 5).generated_filter ::
        ((o.generateTokens question "").map Event.token ++ [Event.sources []]) ∧
    _format_docs [] = "" := by
  constructor
  · have hnil : ("\n\n---\n\n".intercalate ([] : List String)) = "" := rfl
    simp [run_streaming_rag, COMPILED_GRAPH, build_streaming_graph, processGraphEvent,
      finalDocsAux, generate_stream, h, _format_docs, hnil]
  · rfl

/-- Witness for C6 at an oracle that matches nothing. -/
theorem c6_empty_retrieval_safety_witness :
    (retrieve emptyOracle "pergunta" "sumulas_jornada" 5).docs = [] ∧
    run_streaming_rag emptyOracle "pergunta" =
      Event.details "pergunta" "Nenhum filtro aplicado." ::
        ((["Não", " encontrei."].map Event.token) ++ [Event.sources []]) :=
  ⟨by decide, by
    have h := (c6_empty_retrieval_safety emptyOracle "pergunta" (by decide)).1
    exact h.trans (by decide)⟩

/-- A file whose conversion succeeds never raises out of `process_pdf_file`: every
later failure is caught by the `try`/`except`. -/
theorem process_pdf_file_ok (f : FileSpec) (h : f.convOk = true) :
    ∃ l, process_pdf_file f = .ok l := by
  unfold FileSpec.convOk at h
  cases hc : f.conv with
  | error e => rw [hc] at h; simp at h
  | ok t =>
    cases hx : f.extract (PROMPT_EXTRACT_format (basename f.name) ((t.getD "").take 12000)) with
    | raised => exact ⟨[], by simp [process_pdf_file, hc, hx]⟩
    | parsed md chunks =>
      exact ⟨extractChunks (basename f.name) md chunks,
        by simp [process_pdf_file, hc, hx]⟩

/-- Invariant of the ingestion loop when no conversion fails: it completes and appends
exactly one write per file with chunks. -/
theorem ingestLoop_conv_ok (collection : String) :
    ∀ (files : List FileSpec) (ws : List WriteOp) (n : Nat),
      (∀ f ∈ files, f.convOk = true) →
      (ingestLoop collection files ws n).completed = true ∧
      (ingestLoop collection files ws n).writes =
        ws ++ files.filterMap (writeOfFile collection) := by
  intro files
  induction files with
  | nil => intro ws n _; simp [ingestLoop]
  | cons f rest ih =>
    intro ws n h
    have hf : f.convOk = true := h f (by simp)
    have hrest : ∀ g ∈ rest, g.convOk = true := fun g hg => h g (by simp [hg])
    obtain ⟨l, hl⟩ := process_pdf_file_ok f hf
    cases l with
    | nil =>
      have hw : writeOfFile collection f = none := by simp [writeOfFile, hl]
      simp only [ingestLoop, hl, List.filterMap_cons, hw]
      exact ih ws n hrest
    | cons c cs =>
      have hw : writeOfFile collection f =
          some (WriteOp.mk collection ((c :: cs).map (·.text))
            ((c :: cs).map (·.metadata))) := by
        simp [writeOfFile, hl]
      simp only [ingestLoop, hl, List.filterMap_cons, hw]
      have hrec := ih (ws ++ [WriteOp.mk collection ((c :: cs).map (·.text))
        ((c :: cs).map (·.metadata))]) (n + (c :: cs).length) hrest
      refine ⟨hrec.1, ?_⟩
      rw [hrec.2, List.append_assoc]
      rfl

/-- C2 counterexample: a conversion failure does *not* merely skip the failing file.
`md.convert` sits outside the `try` block of `process_pdf_file` and the batch loop of
`main` has no handler, so the exception aborts the batch: with
`[fileOk1, fileConvFails, fileOk2]` the run ends incomplete after one write, although
`fileOk2` would have produced a write of its own. -/
theorem c2_counterexample_conversion_aborts_batch :
    (ingest_main 384 [] "sumulas_jornada" [fileOk1, fileConvFails, fileOk2]).2.completed
        = false ∧
    (ingest_main 384 [] "sumulas_jornada" [fileOk1, fileConvFails, fileOk2]).2.writes.length
        = 1 ∧
    writeOfFile "sumulas_jornada" fileOk2 ≠ none :=
  ⟨by decide, by decide, by decide⟩

/-- C2 amended: post-conversion failures (unparseable extraction output, a failing
chunk loop) are file-scoped — the file is skipped with nothing written for it and the
batch completes over the remaining files; but this holds only when every conversion
succeeds, since a conversion failure propagates and aborts the batch (see the
counterexample). -/
theorem c2_batch_partial_failure (embDim : Nat) (qdrant : QdrantState)
    (collection : String) (files : List FileSpec)
    (h : ∀ f ∈ files, f.convOk = true) :
    (ingest_main embDim qdrant collection files).2.completed = true ∧
    (ingest_main embDim qdrant collection files).2.writes =
      files.filterMap (writeOfFile collection) ∧
    (∀ f ∈ files, process_pdf_file f = .ok [] → writeOfFile collection f = none) := by
  cases files with
  | nil => simp [ingest_main]
  | cons f fs =>
    have hloop := ingestLoop_conv_ok collection (f :: fs) [] 0 h
    refine ⟨?_, ?_, ?_⟩
    · simpa [ingest_main] using hloop.1
    · simpa [ingest_main] using hloop.2
    · intro g _ hp
      simp [writeOfFile, hp]

/-- Witness for C2 at a batch whose middle file fails extraction (not conversion). -/
theorem c2_batch_partial_failure_witness :
    (∀ f ∈ [fileOk1, fileParseFails, fileOk2], f.convOk = true) ∧
    ((ingest_main 384 [] "sumulas_jornada" [fileOk1, fileParseFails, fileOk2]).2.completed
        = true ∧
     (ingest_main 384 [] "sumulas_jornada" [fileOk1, fileParseFails, fileOk2]).2.writes =
       [fileOk1, fileParseFails, fileOk2].filterMap (writeOfFile "sumulas_jornada") ∧
     (∀ f ∈ [fileOk1, fileParseFails, fileOk2], process_pdf_file f = .ok [] →
       writeOfFile "sumulas_jornada" f = none)) :=
  ⟨by decide,
   c2_batch_partial_failure 384 [] "sumulas_jornada" [fileOk1, fileParseFails, fileOk2]
     (by decide)⟩

/-- When the document-level year coerces, the chunk loop never raises and keeps exactly
the non-falsy chunks among enumeration indices 0–2, each tagged with its enumeration
index. -/
theorem buildChunksAux_characterization (md : Metadados) (pdfName : String) (y : Int)
    (hy : coerceYear md.data_status_ano = some y) :
    ∀ (chunks : List (String × Option String)) (i : Nat),
      buildChunksAux md pdfName i chunks =
        .ok ((List.enumFrom i chunks).filterMap (fun p =>
          if pyFalsyStrOpt p.2.2 ∨ p.1 ≥ 3 then none
          else some (mkChunkRec md pdfName y p.2.1 p.2.2 p.1))) := by
  intro chunks
  induction chunks with
  | nil => intro i; simp [buildChunksAux]
  | cons c rest ih =>
    intro i
    obtain ⟨tipo, texto⟩ := c
    by_cases hc : pyFalsyStrOpt texto ∨ i ≥ 3
    · simp [buildChunksAux, hc, List.enumFrom_cons, List.filterMap_cons, ih]
    · simp [buildChunksAux, hc, hy, List.enumFrom_cons, List.filterMap_cons, ih]

/-- Any successful run of the chunk loop started at index `i` yields at most `3 - i`
records, indices between `i` and 2, strictly increasing. -/
theorem buildChunksAux_ok_bounds (md : Metadados) (pdfName : String) :
    ∀ (chunks : List (String × Option String)) (i : Nat) (res : List ChunkRec),
      buildChunksAux md pdfName i chunks = .ok res →
      res.length ≤ 3 - i ∧
      (∀ r ∈ res, i ≤ r.metadata.chunk_index ∧ r.metadata.chunk_index ≤ 2) ∧
      List.Pairwise (fun a b => a.metadata.chunk_index < b.metadata.chunk_index) res := by
  intro chunks
  induction chunks with
  | nil =>
    intro i res h
    simp only [buildChunksAux] at h
    obtain rfl : ([] : List ChunkRec) = res := by simpa using h
    simp
  | cons c rest ih =>
    intro i res h
    obtain ⟨tipo, texto⟩ := c
    by_cases hc : pyFalsyStrOpt texto ∨ i ≥ 3
    · rw [buildChunksAux.eq_def] at h
      simp only [if_pos hc] at h
      have hr := ih (i + 1) res h
      exact ⟨by omega,
        fun r hr' => ⟨by have := (hr.2.1 r hr').1; omega, (hr.2.1 r hr').2⟩, hr.2.2⟩
    · have hi : i < 3 := by
        by_contra hbig
        exact hc (Or.inr (by omega))
      rw [buildChunksAux.eq_def] at h
      simp only [if_neg hc] at h
      cases hy : coerceYear md.data_status_ano with
      | none => rw [hy] at h; simp at h
      | some y =>
        rw [hy] at h
        cases ht : buildChunksAux md pdfName (i + 1) rest with
        | error e => rw [ht] at h; simp at h
        | ok tail =>
          rw [ht] at h
          obtain rfl : mkChunkRec md pdfName y tipo texto i :: tail = res := by
            simpa using h
          have hr := ih (i + 1) tail ht
          refine ⟨by simpa using (by omega : tail.length + 1 ≤ 3 - i), ?_, ?_⟩
          · intro r hrmem
            rcases List.mem_cons.mp hrmem with rfl | hrtail
            · exact ⟨le_refl _, by simpa [mkChunkRec] using (by omega : i ≤ 2)⟩
            · exact ⟨by have := (hr.2.1 r hrtail).1; omega, (hr.2.1 r hrtail).2⟩
          · refine List.Pairwise.cons ?_ hr.2.2
            intro b hb
            have := (hr.2.1 b hb).1
            simp only [mkChunkRec]
            omega

/-- Enumeration indices at or past the cap contribute nothing. -/
theorem filterMap_enumFrom_ge3 (md : Metadados) (pdfName : String) (y : Int) :
    ∀ (rest : List (String × Option String)) (i : Nat), 3 ≤ i →
      (List.enumFrom i rest).filterMap (fun p =>
        if pyFalsyStrOpt p.2.2 ∨ p.1 ≥ 3 then none
        else some (mkChunkRec md pdfName y p.2.1 p.2.2 p.1)) = [] := by
  intro rest
  induction rest with
  | nil => intro i _; simp
  | cons c r ih =>
    intro i hi
    simp only [List.enumFrom_cons, List.filterMap_cons]
    rw [if_pos (Or.inr hi)]
    exact ih (i + 1) (by omega)

/-- C3 counterexample: an extraction output with 5 proposed chunks (4 of them
non-empty) whose first chunk is empty persists only 2 records, with indices 1 and 2 —
not exactly 3 records with indices 0, 1, 2.  Skipped empty chunks still consume an
enumeration index. -/
theorem c3_counterexample_empty_chunk_consumes_index :
    chunksFirstEmpty.length = 5 ∧
    (chunksFirstEmpty.filter (fun p => !pyFalsyStrOpt p.2)).length = 4 ∧
    (process_pdf_file fileFirstEmpty).map
        (List.map (fun r => r.metadata.chunk_index)) = .ok [1, 2] ∧
    ¬(process_pdf_file fileFirstEmpty).map List.length = .ok 3 :=
  ⟨rfl, rfl, by decide, by decide⟩

/-- C3 amended: every successful chunk build persists at most 3 records, each with
`chunk_index ≤ 2`, strictly increasing in extraction order (the index is the chunk's
enumeration position, so an empty chunk still consumes an index); when more than 3
chunks are proposed *and the first three are non-empty*, exactly the first three are
persisted, with indices 0, 1, 2. -/
theorem c3_chunk_cap (md : Metadados) (pdfName : String)
    (chunks : List (String × Option String)) (res : List ChunkRec)
    (h : buildChunksAux md pdfName 0 chunks = .ok res) :
    res.length ≤ 3 ∧
    (∀ r ∈ res, r.metadata.chunk_index ≤ 2) ∧
    List.Pairwise (fun a b => a.metadata.chunk_index < b.metadata.chunk_index) res ∧
    (3 < chunks.length → (∀ p ∈ chunks.take 3, pyFalsyStrOpt p.2 = false) →
      res.map (·.metadata.chunk_index) = [0, 1, 2]) := by
  have hb := buildChunksAux_ok_bounds md pdfName chunks 0 res h
  refine ⟨by simpa using hb.1, fun r hr => (hb.2.1 r hr).2, hb.2.2, ?_⟩
  intro hlen htake
  rcases chunks with _ | ⟨⟨t0, x0⟩, _ | ⟨⟨t1, x1⟩, _ | ⟨⟨t2, x2⟩, rest⟩⟩⟩
  · simp at hlen
  · simp at hlen
  · simp at hlen
  · have h0 : pyFalsyStrOpt x0 = false := htake (t0, x0) (by simp)
    have h1 : pyFalsyStrOpt x1 = false := htake (t1, x1) (by simp)
    have h2 : pyFalsyStrOpt x2 = false := htake (t2, x2) (by simp)
    cases hy : coerceYear md.data_status_ano with
    | none =>
      simp only [buildChunksAux] at h
      rw [if_neg (by simp [h0]), hy] at h
      simp at h
    | some y =>
      rw [buildChunksAux_characterization md pdfName y hy] at h
      obtain rfl : _ = res := by simpa using h
      simp only [List.enumFrom_cons, List.filterMap_cons]
      rw [if_neg (by simp [h0]), if_neg (by simp [h1]), if_neg (by simp [h2]),
        filterMap_enumFrom_ge3 md pdfName y rest 3 (by omega)]
      simp [mkChunkRec]

/-- Result of the chunk loop on `chunksFour` with good metadata. -/
theorem c3_chunk_cap_witness :
    buildChunksAux mdSumula70 "Sumula_70.pdf" 0 chunksFour = .ok resThree ∧
    (resThree.length ≤ 3 ∧
     (∀ r ∈ resThree, r.metadata.chunk_index ≤ 2) ∧
     List.Pairwise (fun a b => a.metadata.chunk_index < b.metadata.chunk_index) resThree ∧
     (3 < chunksFour.length → (∀ p ∈ chunksFour.take 3, pyFalsyStrOpt p.2 = false) →
       resThree.map (·.metadata.chunk_index) = [0, 1, 2])) :=
  ⟨by decide, c3_chunk_cap mdSumula70 "Sumula_70.pdf" chunksFour resThree (by decide)⟩

/-- With a non-coercing year, every successful run of the chunk loop is empty (a chunk
that would be built raises instead, aborting the loop). -/
theorem buildChunksAux_year_none (md : Metadados) (pdfName : String)
    (h : coerceYear md.data_status_ano = none) :
    ∀ (chunks : List (String × Option String)) (i : Nat) (res : List ChunkRec),
      buildChunksAux md pdfName i chunks = .ok res → res = [] := by
  intro chunks
  induction chunks with
  | nil =>
    intro i res hb
    simp only [buildChunksAux] at hb
    exact (Except.ok.inj hb).symm
  | cons c rest ih =>
    intro i res hb
    obtain ⟨tipo, texto⟩ := c
    by_cases hc : pyFalsyStrOpt texto ∨ i ≥ 3
    · simp only [buildChunksAux] at hb
      rw [if_pos hc] at hb
      exact ih (i + 1) res hb
    · simp only [buildChunksAux] at hb
      rw [if_neg hc, h] at hb
      simp at hb

/-- C5 counterexample: three present, non-empty chunks with a non-numeric year — the
*whole document* is dropped (`process_pdf_file` returns the empty list) instead of
only "that single chunk". -/
theorem c5_counterexample_bad_year_drops_document :
    coerceYear mdBadYear.data_status_ano = none ∧
    (∀ p ∈ chunksThree, pyFalsyStrOpt p.2 = false) ∧
    process_pdf_file fileBadYear = .ok [] :=
  ⟨by decide, by decide, by decide⟩

/-- C5 amended: the year is document-level metadata coerced inside the chunk loop; if
it is non-numeric the raised `ValueError` is caught by the document-level `except`, so
*no* chunk of the document is built or persisted — `process_pdf_file` returns the
empty list (the batch continues with the next file). -/
theorem c5_bad_year_document_scoped (md : Metadados)
    (chunks : List (String × Option String))
    (h : coerceYear md.data_status_ano = none) :
    (∀ pdfName : String, extractChunks pdfName md chunks = []) ∧
    (∀ (nm : String) (t : Option String),
      process_pdf_file ⟨nm, .ok t, fun _ => .parsed md chunks⟩ = .ok []) := by
  have hx : ∀ pdfName : String, extractChunks pdfName md chunks = [] := by
    intro pdfName
    unfold extractChunks
    cases hb : buildChunksAux md pdfName 0 chunks with
    | error e => rfl
    | ok res => exact buildChunksAux_year_none md pdfName h chunks 0 res hb
  exact ⟨hx, fun nm t => by simp [process_pdf_file, hx]⟩

/-- Witness for C5 at the concrete bad-year document. -/
theorem c5_bad_year_document_scoped_witness :
    coerceYear mdBadYear.data_status_ano = none ∧
    extractChunks "Sumula_74.pdf" mdBadYear chunksThree = [] ∧
    process_pdf_file ⟨"sumulas/Sumula_74.pdf", .ok (some "SUMULA 74 texto"),
      fun _ => .parsed mdBadYear chunksThree⟩ = .ok [] :=
  ⟨by decide,
   (c5_bad_year_document_scoped mdBadYear chunksThree (by decide)).1 "Sumula_74.pdf",
   (c5_bad_year_document_scoped mdBadYear chunksThree (by decide)).2
     "sumulas/Sumula_74.pdf" (some "SUMULA 74 texto")⟩

/-! ### Scanner lemmas for the filter display pipeline -/

/-- `(s ++ t).toList` splits (definitionally). -/
theorem toList_append (s t : String) : (s ++ t).toList = s.toList ++ t.toList := rfl

/-- A literal match consumes exactly the pattern's length. -/
theorem matchLit_length : ∀ (p s r : List Char), matchLit p s = some r →
    r.length + p.length = s.length := by
  intro p
  induction p with
  | nil =>
    intro s r h
    simp only [matchLit, Option.some.injEq] at h
    subst h
    simp
  | cons x ps ih =>
    intro s r h
    cases s with
    | nil => simp [matchLit] at h
    | cons d s' =>
      by_cases hx : x = d
      · simp only [matchLit, if_pos hx] at h
        have := ih s' r h
        simp only [List.length_cons]
        omega
      · simp [matchLit, hx] at h

theorem takeToGt_length : ∀ (s r : List Char), takeToGt s = some r →
    r.length < s.length := by
  intro s
  induction s with
  | nil => intro r h; simp [takeToGt] at h
  | cons c s' ih =>
    intro r h
    by_cases hc : c = '>'
    · simp only [takeToGt, if_pos hc, Option.some.injEq] at h
      subst h
      simp
    · simp only [takeToGt, if_neg hc] at h
      have := ih r h
      simp only [List.length_cons]
      omega

theorem dropWs_length : ∀ s : List Char, (dropWs s).length ≤ s.length := by
  intro s
  induction s with
  | nil => simp [dropWs]
  | cons c s' ih =>
    by_cases hc : isWsChar c = true
    · simp only [dropWs, if_pos hc]
      simp only [List.length_cons]
      omega
    · simp [dropWs, hc]

theorem takeUntilQuote_length : ∀ (s a r : List Char),
    takeUntilQuote s = some (a, r) → r.length < s.length := by
  intro s
  induction s with
  | nil => intro a r h; simp [takeUntilQuote] at h
  | cons c s' ih =>
    intro a r h
    by_cases hc : c = '\''
    · simp only [takeUntilQuote, if_pos hc, Option.some.injEq, Prod.mk.injEq] at h
      obtain ⟨rfl, rfl⟩ := h
      simp
    · simp only [takeUntilQuote, if_neg hc] at h
      cases ht : takeUntilQuote s' with
      | none => rw [ht] at h; simp at h
      | some p =>
        obtain ⟨p1, p2⟩ := p
        rw [ht] at h
        simp only [Option.map_some', Option.some.injEq, Prod.mk.injEq] at h
        obtain ⟨rfl, rfl⟩ := h
        have := ih p1 p2 ht
        simp only [List.length_cons]
        omega

theorem takeUntilQuoteParen_length : ∀ (s a r : List Char),
    takeUntilQuoteParen s = some (a, r) → r.length < s.length := by
  intro s
  induction s with
  | nil => intro a r h; simp [takeUntilQuoteParen] at h
  | cons c s' ih =>
    intro a r h
    by_cases hc : c = '\'' ∧ s'.head? = some ')'
    · simp only [takeUntilQuoteParen, if_pos hc, Option.some.injEq, Prod.mk.injEq] at h
      obtain ⟨rfl, rfl⟩ := h
      have : s'.tail.length ≤ s'.length := by
        cases s' <;> simp
      simp only [List.length_cons]
      omega
    · simp only [takeUntilQuoteParen, if_neg hc] at h
      cases ht : takeUntilQuoteParen s' with
      | none => rw [ht] at h; simp at h
      | some p =>
        obtain ⟨p1, p2⟩ := p
        rw [ht] at h
        simp only [Option.map_some', Option.some.injEq, Prod.mk.injEq] at h
        obtain ⟨rfl, rfl⟩ := h
        have := ih p1 p2 ht
        simp only [List.length_cons]
        omega

theorem matchOperationHead_length (s r : List Char)
    (h : matchOperationHead s = some r) : r.length < s.length := by
  unfold matchOperationHead at h
  cases h1 : matchLit opHeadPat s with
  | none => rw [h1] at h; simp at h
  | some s1 =>
    rw [h1] at h
    simp only [Option.some_bind] at h
    cases h2 : takeToGt s1 with
    | none => rw [h2] at h; simp at h
    | some s2 =>
      rw [h2] at h
      simp only [Option.some_bind] at h
      cases h3 : matchLit [ ',' ] s2 with
      | none => rw [h3] at h; simp at h
      | some s3 =>
        rw [h3] at h
        simp only [Option.some_bind] at h
        have l1 := matchLit_length _ _ _ h1
        have l2 := takeToGt_length _ _ h2
        have l3 := matchLit_length _ _ _ h3
        have l4 := matchLit_length _ _ _ h
        have l5 := dropWs_length s3
        have e1 : opHeadPat.length = 29 := by decide
        have e2 : ([ ',' ] : List Char).length = 1 := by decide
        have e3 : ("arguments=".toList).length = 10 := by decide
        omega

theorem matchComparisonAt_length (s : List Char) (a v r : List Char)
    (h : matchComparisonAt s = some (a, v, r)) : r.length < s.length := by
  unfold matchComparisonAt at h
  cases h1 : matchLit cmpHeadPat s with
  | none => rw [h1] at h; simp at h
  | some s1 =>
    rw [h1] at h
    simp only [Option.some_bind] at h
    cases h2 : takeUntilQuote s1 with
    | none => rw [h2] at h; simp at h
    | some p1 =>
      obtain ⟨a1, s2⟩ := p1
      rw [h2] at h
      simp only [Option.some_bind] at h
      cases h3 : matchLit [ ',' ] s2 with
      | none => rw [h3] at h; simp at h
      | some s3 =>
        rw [h3] at h
        simp only [Option.some_bind] at h
        cases h4 : matchLit "operator=<Comparator.".toList (dropWs s3) with
        | none => rw [h4] at h; simp at h
        | some s4 =>
          rw [h4] at h
          simp only [Option.some_bind] at h
          cases h5 : takeToGt s4 with
          | none => rw [h5] at h; simp at h
          | some s5 =>
            rw [h5] at h
            simp only [Option.some_bind] at h
            cases h6 : matchLit [ ',' ] s5 with
            | none => rw [h6] at h; simp at h
            | some s6 =>
              rw [h6] at h
              simp only [Option.some_bind] at h
              cases h7 : matchLit "value='".toList (dropWs s6) with
              | none => rw [h7] at h; simp at h
              | some s7 =>
                rw [h7] at h
                simp only [Option.some_bind] at h
                cases h8 : takeUntilQuoteParen s7 with
                | none => rw [h8] at h; simp at h
                | some p2 =>
                  obtain ⟨v1, s8⟩ := p2
                  rw [h8] at h
                  simp only [Option.map_some', Option.some.injEq,
                    Prod.mk.injEq] at h
                  obtain ⟨-, -, rfl⟩ := h
                  have l1 := matchLit_length _ _ _ h1
                  have l2 := takeUntilQuote_length _ _ _ h2
                  have l3 := matchLit_length _ _ _ h3
                  have l4 := matchLit_length _ _ _ h4
                  have l5 := takeToGt_length _ _ h5
                  have l6 := matchLit_length _ _ _ h6
                  have l7 := matchLit_length _ _ _ h7
                  have l8 := takeUntilQuoteParen_length _ _ _ h8
                  have d3 := dropWs_length s3
                  have d6 := dropWs_length s6
                  have e1 : cmpHeadPat.length = 22 := by decide
                  have e2 : ([ ',' ] : List Char).length = 1 := by decide
                  have e3 : ("operator=<Comparator.".toList).length = 21 := by decide
                  have e4 : ("value='".toList).length = 7 := by decide
                  omega

/-- The fuel is irrelevant as long as it dominates the input length. -/
theorem stripOperationHeadsFuel_congr : ∀ (f₁ f₂ : Nat) (s : List Char),
    s.length ≤ f₁ → s.length ≤ f₂ →
    stripOperationHeadsFuel f₁ s = stripOperationHeadsFuel f₂ s := by
  intro f₁
  induction f₁ with
  | zero =>
    intro f₂ s h1 _
    have hs : s = [] := List.eq_nil_of_length_eq_zero (Nat.le_zero.mp h1)
    subst hs
    cases f₂ <;> rfl
  | succ f ih =>
    intro f₂ s h1 h2
    cases s with
    | nil => cases f₂ <;> rfl
    | cons c s' =>
      cases f₂ with
      | zero => simp at h2
      | succ g =>
        simp only [stripOperationHeadsFuel]
        cases hm : matchOperationHead (c :: s') with
        | some rest =>
          have hlen := matchOperationHead_length _ _ hm
          simp only [List.length_cons] at h1 h2 hlen
          exact ih g rest (by omega) (by omega)
        | none =>
          simp only [List.length_cons] at h1 h2
          rw [ih g s' (by omega) (by omega)]

theorem stripOperationHeads_cons_some (c : Char) (s r : List Char)
    (h : matchOperationHead (c :: s) = some r) :
    stripOperationHeads (c :: s) = stripOperationHeads r := by
  have hr : r.length ≤ s.length := by
    have := matchOperationHead_length _ _ h
    simp only [List.length_cons] at this
    omega
  show stripOperationHeadsFuel (c :: s).length (c :: s) = _
  simp only [List.length_cons, stripOperationHeadsFuel, h]
  exact stripOperationHeadsFuel_congr s.length r.length r hr (le_refl _)

theorem stripOperationHeads_cons_none (c : Char) (s : List Char)
    (h : matchOperationHead (c :: s) = none) :
    stripOperationHeads (c :: s) = c :: stripOperationHeads s := by
  show stripOperationHeadsFuel (c :: s).length (c :: s) = _
  simp only [List.length_cons, stripOperationHeadsFuel, h]
  rfl

theorem rewriteComparisonsFuel_congr : ∀ (f₁ f₂ : Nat) (s : List Char),
    s.length ≤ f₁ → s.length ≤ f₂ →
    rewriteComparisonsFuel f₁ s = rewriteComparisonsFuel f₂ s := by
  intro f₁
  induction f₁ with
  | zero =>
    intro f₂ s h1 _
    have hs : s = [] := List.eq_nil_of_length_eq_zero (Nat.le_zero.mp h1)
    subst hs
    cases f₂ <;> rfl
  | succ f ih =>
    intro f₂ s h1 h2
    cases s with
    | nil => cases f₂ <;> rfl
    | cons c s' =>
      cases f₂ with
      | zero => simp at h2
      | succ g =>
        simp only [rewriteComparisonsFuel]
        cases hm : matchComparisonAt (c :: s') with
        | some t =>
          obtain ⟨a, v, rest⟩ := t
          have hlen := matchComparisonAt_length _ _ _ _ hm
          simp only [List.length_cons] at h1 h2 hlen
          dsimp only
          rw [ih g rest (by omega) (by omega)]
        | none =>
          simp only [List.length_cons] at h1 h2
          rw [ih g s' (by omega) (by omega)]

theorem rewriteComparisons_cons_some (c : Char) (s : List Char)
    (a v r : List Char) (h : matchComparisonAt (c :: s) = some (a, v, r)) :
    rewriteComparisons (c :: s) =
      a ++ " = '".toList ++ v ++ '\'' :: rewriteComparisons r := by
  have hr : r.length ≤ s.length := by
    have := matchComparisonAt_length _ _ _ _ h
    simp only [List.length_cons] at this
    omega
  show rewriteComparisonsFuel (c :: s).length (c :: s) = _
  simp only [List.length_cons, rewriteComparisonsFuel, h]
  rw [rewriteComparisonsFuel_congr s.length r.length r hr (le_refl _)]
  rfl

theorem rewriteComparisons_cons_none (c : Char) (s : List Char)
    (h : matchComparisonAt (c :: s) = none) :
    rewriteComparisons (c :: s) = c :: rewriteComparisons s := by
  show rewriteComparisonsFuel (c :: s).length (c :: s) = _
  simp only [List.length_cons, rewriteComparisonsFuel, h]
  rfl

/-- A literal pattern matches its own prepension. -/
theorem matchLit_self_append : ∀ (p s : List Char), matchLit p (p ++ s) = some s := by
  intro p
  induction p with
  | nil => intro s; rfl
  | cons x ps ih => intro s; simp [matchLit, ih]

theorem matchLit_cons_self (x : Char) (s : List Char) :
    matchLit [ x ] (x :: s) = some s := by
  simp [matchLit]

theorem matchLit_head_ne (p d : Char) (ps s : List Char) (h : p ≠ d) :
    matchLit (p :: ps) (d :: s) = none := by
  simp [matchLit, h]

theorem takeToGt_append : ∀ (a : List Char), (∀ ch ∈ a, ch ≠ '>') →
    ∀ r : List Char, takeToGt (a ++ '>' :: r) = some r := by
  intro a
  induction a with
  | nil => intro _ r; simp [takeToGt]
  | cons x a' ih =>
    intro h r
    have hx : x ≠ '>' := h x (by simp)
    simp only [List.cons_append, takeToGt, if_neg hx]
    exact ih (fun ch hc => h ch (by simp [hc])) r

theorem takeUntilQuote_append : ∀ (a : List Char), (∀ ch ∈ a, ch ≠ '\'') →
    ∀ r : List Char, takeUntilQuote (a ++ '\'' :: r) = some (a, r) := by
  intro a
  induction a with
  | nil => intro _ r; simp [takeUntilQuote]
  | cons x a' ih =>
    intro h r
    have hx : x ≠ '\'' := h x (by simp)
    simp only [List.cons_append, takeUntilQuote, if_neg hx]
    show Option.map (fun p => (x :: p.1, p.2)) (takeUntilQuote (a' ++ '\'' :: r)) =
      some (x :: a', r)
    rw [ih (fun ch hc => h ch (by simp [hc])) r]
    rfl

theorem takeUntilQuoteParen_append : ∀ (a : List Char), (∀ ch ∈ a, ch ≠ '\'') →
    ∀ r : List Char, takeUntilQuoteParen (a ++ '\'' :: ')' :: r) = some (a, r) := by
  intro a
  induction a with
  | nil => intro _ r; simp [takeUntilQuoteParen]
  | cons x a' ih =>
    intro h r
    have hx : x ≠ '\'' := h x (by simp)
    simp only [List.cons_append, takeUntilQuoteParen]
    rw [if_neg (by simp [hx])]
    show Option.map (fun p => (x :: p.1, p.2))
        (takeUntilQuoteParen (a' ++ '\'' :: ')' :: r)) = some (x :: a', r)
    rw [ih (fun ch hc => h ch (by simp [hc])) r]
    rfl

/-- The first rewrite pattern consumes exactly the head of an `AND` operation repr. -/
theorem matchOperationHead_and (rest : List Char) :
    matchOperationHead ((operationHead .andOp).toList ++ rest) = some rest := rfl

/-- A clean string's characters avoid the pipeline's special characters. -/
theorem cleanStr_spec (s : String) (h : cleanStr s = true) :
    ∀ ch ∈ s.toList, ch ≠ '\'' ∧ ch ≠ '(' ∧ ch ≠ ')' ∧ ch ≠ '[' ∧ ch ≠ ']' := by
  intro ch hm
  have hx := (List.all_eq_true.mp h) ch hm
  simp only [Bool.and_eq_true, decide_eq_true_eq] at hx
  exact ⟨hx.1.1.1.1, hx.1.1.1.2, hx.1.1.2, hx.1.2, hx.2⟩

/-- The second rewrite pattern consumes exactly one comparison repr in canonical
shape, capturing attribute and value. -/
theorem matchComparisonAt_canonical (attr mid val rest : List Char)
    (ha : ∀ ch ∈ attr, ch ≠ '\'') (hm : ∀ ch ∈ mid, ch ≠ '>')
    (hv : ∀ ch ∈ val, ch ≠ '\'') :
    matchComparisonAt (cmpCanonical attr mid val rest) = some (attr, val, rest) := by
  unfold matchComparisonAt
  rw [show cmpCanonical attr mid val rest =
    cmpHeadPat ++ (attr ++ ('\'' :: (',' :: (' ' :: midTail mid val rest)))) from rfl]
  rw [matchLit_self_append]
  simp only [Option.some_bind]
  rw [takeUntilQuote_append attr ha]
  simp only [Option.some_bind]
  rw [matchLit_cons_self]
  simp only [Option.some_bind]
  rw [show dropWs (' ' :: midTail mid val rest) = midTail mid val rest from rfl]
  rw [show midTail mid val rest = "operator=<Comparator.".toList ++
    (mid ++ ('>' :: (',' :: (' ' :: valTail val rest)))) from rfl]
  rw [matchLit_self_append]
  simp only [Option.some_bind]
  rw [takeToGt_append mid hm]
  simp only [Option.some_bind]
  rw [matchLit_cons_self]
  simp only [Option.some_bind]
  rw [show dropWs (' ' :: valTail val rest) = valTail val rest from rfl]
  rw [show valTail val rest =
    "value='".toList ++ (val ++ ('\'' :: ')' :: rest)) from rfl]
  rw [matchLit_self_append]
  simp only [Option.some_bind]
  rw [takeUntilQuoteParen_append val hv]
  rfl

/-- The second rewrite pattern consumes exactly one comparison repr. -/
theorem matchComparisonAt_repr (c : FilterComparison) (rest : List Char)
    (ha : cleanStr c.attr = true) (hv : cleanStr c.value = true) :
    matchComparisonAt ((reprComparison c).toList ++ rest) =
      some (c.attr.toList, c.value.toList, rest) := by
  obtain ⟨attr, op, val⟩ := c
  have hshape : (reprComparison ⟨attr, op, val⟩).toList ++ rest =
      cmpCanonical attr.toList
        ((cmpOpUpper op ++ ": '" ++ cmpOpLower op ++ "'").toList) val.toList rest := by
    simp only [reprComparison, cmpCanonical, midTail, valTail, toList_append,
      cmpHeadPat,
      show ("', operator=<Comparator." : String).toList =
        '\'' :: ',' :: ' ' :: ("operator=<Comparator." : String).toList from rfl,
      show ("'>, value='" : String).toList =
        '\'' :: '>' :: ',' :: ' ' :: ("value='" : String).toList from rfl,
      show ("')" : String).toList = ['\'', ')'] from rfl,
      show ("'" : String).toList = ['\''] from rfl,
      List.append_assoc, List.cons_append, List.nil_append]
  rw [hshape]
  exact matchComparisonAt_canonical attr.toList
    ((cmpOpUpper op ++ ": '" ++ cmpOpLower op ++ "'").toList) val.toList rest
    (fun ch hc => (cleanStr_spec attr ha ch hc).1)
    (by cases op <;> decide)
    (fun ch hc => (cleanStr_spec val hv ch hc).1)

theorem matchOperationHead_none (s : List Char) (h : matchLit opHeadPat s = none) :
    matchOperationHead s = none := by
  unfold matchOperationHead
  rw [h]
  rfl

theorem matchComparisonAt_none (s : List Char) (h : matchLit cmpHeadPat s = none) :
    matchComparisonAt s = none := by
  unfold matchComparisonAt
  rw [h]
  rfl

theorem matchComparisonAt_ne_C (d : Char) (s : List Char) (h : d ≠ 'C') :
    matchComparisonAt (d :: s) = none := by
  apply matchComparisonAt_none
  rw [show cmpHeadPat = 'C' :: ("omparator(attribute='" : String).toList from rfl]
  exact matchLit_head_ne _ _ _ _ (Ne.symm h)

/-- When the operation pattern occurs nowhere, the first rewrite is the identity. -/
theorem stripOperationHeads_noLit (s : List Char) (h : noLit opHeadPat s = true) :
    stripOperationHeads s = s := by
  induction s with
  | nil => rfl
  | cons c s' ih =>
    simp only [noLit, Bool.and_eq_true, Bool.not_eq_true'] at h
    have hn : matchOperationHead (c :: s') = none :=
      matchOperationHead_none _ (Option.not_isSome_iff_eq_none.mp (by simp [h.1]))
    rw [stripOperationHeads_cons_none c s' hn, ih h.2]

/-- Characters other than `C` pass through the second rewrite. -/
theorem rewriteComparisons_pass (d : Char) (s : List Char) (h : d ≠ 'C') :
    rewriteComparisons (d :: s) = d :: rewriteComparisons s :=
  rewriteComparisons_cons_none d s (matchComparisonAt_ne_C d s h)

theorem reprComparison_head (c : FilterComparison) :
    ∃ l, (reprComparison c).toList = 'C' :: l :=
  ⟨_, rfl⟩

/-- The second rewrite turns one comparison repr into `attr = 'value'` and goes on. -/
theorem rewriteComparisons_repr (c : FilterComparison) (tail : List Char)
    (ha : cleanStr c.attr = true) (hv : cleanStr c.value = true) :
    rewriteComparisons ((reprComparison c).toList ++ tail) =
      (renderComparison c).toList ++ rewriteComparisons tail := by
  obtain ⟨l, hl⟩ := reprComparison_head c
  have hm := matchComparisonAt_repr c tail ha hv
  rw [hl, List.cons_append] at hm
  rw [hl, List.cons_append,
    rewriteComparisons_cons_some _ _ _ _ _ hm]
  simp only [renderComparison, toList_append,
    show ("'" : String).toList = ['\''] from rfl,
    show (" = '" : String).toList = ' ' :: '=' :: ' ' :: '\'' :: [] from rfl,
    List.append_assoc, List.cons_append, List.nil_append]

/-- The second rewrite maps the bracketed argument list to the clause rendering. -/
theorem rewriteComparisons_args (cs : List FilterComparison)
    (hclean : ∀ x ∈ cs, cleanStr x.attr = true ∧ cleanStr x.value = true) :
    rewriteComparisons ((reprArgsJoin cs).toList ++ "])".toList) =
      (displayClauses cs).toList ++ "])".toList := by
  induction cs with
  | nil => decide
  | cons c rest ih =>
    have hc := hclean c (by simp)
    cases rest with
    | nil =>
      simp only [reprArgsJoin, displayClauses]
      rw [rewriteComparisons_repr c _ hc.1 hc.2]
      rfl
    | cons c' rest' =>
      simp only [reprArgsJoin, displayClauses]
      have hrest : ∀ x ∈ c' :: rest', cleanStr x.attr = true ∧ cleanStr x.value = true :=
        fun x hx => hclean x (by simp [hx])
      have hjoin := ih hrest
      rw [show ((reprComparison c ++ ", " ++ reprArgsJoin (c' :: rest')).toList ++
          "])".toList : List Char) =
        (reprComparison c).toList ++ (',' :: ' ' ::
          ((reprArgsJoin (c' :: rest')).toList ++ "])".toList)) by
        simp only [toList_append, show (", " : String).toList = [',', ' '] from rfl,
          List.append_assoc, List.cons_append, List.nil_append]]
      rw [rewriteComparisons_repr c _ hc.1 hc.2,
        rewriteComparisons_pass ',' _ (by decide),
        rewriteComparisons_pass ' ' _ (by decide), hjoin]
      simp only [toList_append, show (", " : String).toList = [',', ' '] from rfl,
        List.append_assoc, List.cons_append, List.nil_append]

/-- `dropWhile` is the identity when no character satisfies the predicate. -/
theorem dropWhile_false_of_all (p : Char → Bool) (l : List Char)
    (h : ∀ ch ∈ l, p ch = false) : l.dropWhile p = l := by
  cases l with
  | nil => rfl
  | cons c l' => simp [List.dropWhile_cons, h c (by simp)]

/-- `strip("()")` is the identity on parenthesis-free text. -/
theorem stripParens_no_paren (d : List Char)
    (h : ∀ ch ∈ d, isParenChar ch = false) : stripParens d = d := by
  unfold stripParens
  rw [dropWhile_false_of_all _ _ h,
    dropWhile_false_of_all _ _ (fun ch hc => h ch (List.mem_reverse.mp hc)),
    List.reverse_reverse]

/-- `strip("()")` removes exactly a trailing `)` from parenthesis-free text. -/
theorem stripParens_append_rparen (d : List Char) (hne : d ≠ [])
    (h : ∀ ch ∈ d, isParenChar ch = false) : stripParens (d ++ [')']) = d := by
  unfold stripParens
  cases d with
  | nil => exact absurd rfl hne
  | cons c d' =>
    rw [List.cons_append, List.dropWhile_cons, if_neg (by simp [h c (by simp)])]
    rw [show (c :: (d' ++ [')']) : List Char) = (c :: d') ++ [')'] from rfl,
      List.reverse_append,
      show ([')'] : List Char).reverse = [')'] from rfl,
      List.singleton_append]
    rw [List.dropWhile_cons, if_pos (by decide),
      dropWhile_false_of_all _ _ (fun ch hc => h ch (List.mem_reverse.mp hc)),
      List.reverse_reverse]

/-- `replace("),", " E ")` distributes over a right-parenthesis-free prefix. -/
theorem replaceParenComma_append (d : List Char) (h : ∀ ch ∈ d, ch ≠ ')') :
    ∀ t : List Char, replaceParenComma (d ++ t) = d ++ replaceParenComma t := by
  induction d with
  | nil => intro t; rfl
  | cons c d' ih =>
    intro t
    have hc : c ≠ ')' := h c (by simp)
    cases hdt : d' ++ t with
    | nil =>
      obtain ⟨rfl, rfl⟩ := List.append_eq_nil.mp hdt
      simp [replaceParenComma]
    | cons e l =>
      rw [List.cons_append, hdt, replaceParenComma, if_neg (by simp [hc]), ← hdt,
        ih (fun ch hx => h ch (by simp [hx])) t]
      rfl

theorem rewriteComparisons_nil : rewriteComparisons [] = [] := rfl

theorem sep_eq_chars : ∀ ch ∈ (" = '" : String).toList,
    ch ≠ '(' ∧ ch ≠ ')' ∧ ch ≠ '[' ∧ ch ≠ ']' := by decide

theorem sep_quote_chars : ∀ ch ∈ ("'" : String).toList,
    ch ≠ '(' ∧ ch ≠ ')' ∧ ch ≠ '[' ∧ ch ≠ ']' := by decide

theorem sep_comma_chars : ∀ ch ∈ (", " : String).toList,
    ch ≠ '(' ∧ ch ≠ ')' ∧ ch ≠ '[' ∧ ch ≠ ']' := by decide

/-- The rendered clause `attr = 'value'` contains no parenthesis or bracket when the
attribute and value are clean. -/
theorem renderComparison_chars (c : FilterComparison)
    (h1 : cleanStr c.attr = true) (h2 : cleanStr c.value = true) :
    ∀ ch ∈ (renderComparison c).toList,
      ch ≠ '(' ∧ ch ≠ ')' ∧ ch ≠ '[' ∧ ch ≠ ']' := by
  have hattr := cleanStr_spec c.attr h1
  have hval := cleanStr_spec c.value h2
  intro ch hm
  rw [show (renderComparison c).toList = c.attr.toList ++ (" = '".toList ++
      (c.value.toList ++ ("'" : String).toList)) from by
    simp only [renderComparison, toList_append, List.append_assoc]] at hm
  simp only [List.mem_append] at hm
  rcases hm with hm | hm | hm | hm
  · exact ⟨(hattr ch hm).2.1, (hattr ch hm).2.2.1, (hattr ch hm).2.2.2.1,
      (hattr ch hm).2.2.2.2⟩
  · exact sep_eq_chars ch hm
  · exact ⟨(hval ch hm).2.1, (hval ch hm).2.2.1, (hval ch hm).2.2.2.1,
      (hval ch hm).2.2.2.2⟩
  · exact sep_quote_chars ch hm

/-- The rendered clause list contains no parenthesis or bracket. -/
theorem displayClauses_chars (cs : List FilterComparison)
    (hclean : ∀ x ∈ cs, cleanStr x.attr = true ∧ cleanStr x.value = true) :
    ∀ ch ∈ (displayClauses cs).toList,
      ch ≠ '(' ∧ ch ≠ ')' ∧ ch ≠ '[' ∧ ch ≠ ']' := by
  induction cs with
  | nil => intro ch hm; simp [displayClauses] at hm
  | cons c rest ih =>
    have hc := hclean c (by simp)
    cases rest with
    | nil => exact renderComparison_chars c hc.1 hc.2
    | cons c' rest' =>
      intro ch hm
      rw [show (displayClauses (c :: c' :: rest')).toList =
          (renderComparison c).toList ++ ((", " : String).toList ++
            (displayClauses (c' :: rest')).toList) from by
        simp only [displayClauses, toList_append, List.append_assoc]] at hm
      simp only [List.mem_append] at hm
      rcases hm with hm | hm | hm
      · exact renderComparison_chars c hc.1 hc.2 ch hm
      · exact sep_comma_chars ch hm
      · exact ih (fun x hx => hclean x (by simp [hx])) ch hm

theorem renderComparison_toList_ne_nil (c : FilterComparison) :
    (renderComparison c).toList ≠ [] := by
  intro hc
  rw [show (renderComparison c).toList = c.attr.toList ++ (" = '".toList ++
      (c.value.toList ++ ("'" : String).toList)) from by
    simp only [renderComparison, toList_append, List.append_assoc]] at hc
  simp [List.append_eq_nil] at hc

theorem displayClauses_toList_ne_nil (cs : List FilterComparison) (h : cs ≠ []) :
    (displayClauses cs).toList ≠ [] := by
  cases cs with
  | nil => exact absurd rfl h
  | cons c rest =>
    cases rest with
    | nil => exact renderComparison_toList_ne_nil c
    | cons c' rest' =>
      intro hc
      rw [show (displayClauses (c :: c' :: rest')).toList =
          (renderComparison c).toList ++ ((", " : String).toList ++
            (displayClauses (c' :: rest')).toList) from by
        simp only [displayClauses, toList_append, List.append_assoc]] at hc
      exact renderComparison_toList_ne_nil c (List.append_eq_nil.mp hc).1

theorem removeChar_id (x : Char) (l : List Char) (h : ∀ ch ∈ l, ch ≠ x) :
    removeChar x l = l := by
  unfold removeChar
  exact List.filter_eq_self.mpr (fun a ha => by simpa using h a ha)

theorem removeChar_append (x : Char) (a b : List Char) :
    removeChar x (a ++ b) = removeChar x a ++ removeChar x b :=
  List.filter_append _ _

theorem removeChar_cons_self (x : Char) (l : List Char) :
    removeChar x (x :: l) = removeChar x l := by
  unfold removeChar
  rw [List.filter_cons, if_neg (by simp)]

theorem matchOperationHead_and_cons (rest : List Char) :
    matchOperationHead ('O' ::
      ("peration(operator=<Operator.AND: 'and'>, arguments=".toList ++ rest)) =
      some rest := rfl

/-- The first rewrite removes exactly the head of an `AND` operation repr. -/
theorem stripOperationHeads_opHead (rest : List Char) :
    stripOperationHeads ((operationHead .andOp).toList ++ rest) =
      stripOperationHeads rest := by
  rw [show (operationHead .andOp).toList ++ rest =
    'O' :: ("peration(operator=<Operator.AND: 'and'>, arguments=".toList ++ rest)
    from rfl]
  exact stripOperationHeads_cons_some _ _ _ (matchOperationHead_and_cons rest)

/-- The display pipeline on an `AND` of clean comparisons yields the clause list,
rendered `field = 'value'` and joined with `", "`. -/
theorem displayPipeline_operation (cs : List FilterComparison) (hcs : cs ≠ [])
    (hclean : ∀ x ∈ cs, cleanStr x.attr = true ∧ cleanStr x.value = true)
    (hnol : noLit opHeadPat ("[" ++ reprArgsJoin cs ++ "])").toList = true) :
    displayPipeline (.operation .andOp cs) = (displayClauses cs).toList := by
  have hchars := displayClauses_chars cs hclean
  have hne := displayClauses_toList_ne_nil cs hcs
  unfold displayPipeline
  rw [show (reprFilter (.operation .andOp cs)).toList =
      (operationHead .andOp).toList ++ ("[" ++ reprArgsJoin cs ++ "])").toList
    from by simp only [reprFilter, toList_append, List.append_assoc]]
  rw [stripOperationHeads_opHead]
  rw [stripOperationHeads_noLit _ hnol]
  rw [show ("[" ++ reprArgsJoin cs ++ "])").toList =
      '[' :: ((reprArgsJoin cs).toList ++ "])".toList) from by
    simp only [toList_append, List.append_assoc,
      show ("[" : String).toList = ['['] from rfl, List.singleton_append,
      List.cons_append, List.nil_append]]
  rw [rewriteComparisons_pass '[' _ (by decide)]
  rw [rewriteComparisons_args cs hclean]
  rw [removeChar_cons_self, removeChar_append,
    removeChar_id '[' _ (fun ch hc => (hchars ch hc).2.2.1),
    show removeChar '[' ("])".toList) = [']', ')'] from by decide]
  rw [removeChar_append,
    removeChar_id ']' _ (fun ch hc => (hchars ch hc).2.2.2),
    show removeChar ']' [']', ')'] = [')'] from by decide]
  rw [replaceParenComma_append _ (fun ch hc => (hchars ch hc).2.1) [')'],
    show replaceParenComma [')'] = [')'] from rfl]
  exact stripParens_append_rparen _ hne
    (fun ch hc => by simp [isParenChar, (hchars ch hc).1, (hchars ch hc).2.1])

/-- The display pipeline on a single clean comparison yields `field = 'value'`. -/
theorem displayPipeline_comparison (c : FilterComparison)
    (ha : cleanStr c.attr = true) (hv : cleanStr c.value = true)
    (hnolc : noLit opHeadPat (reprComparison c).toList = true) :
    displayPipeline (.comparison c) = (renderComparison c).toList := by
  have hchars := renderComparison_chars c ha hv
  unfold displayPipeline
  rw [show (reprFilter (.comparison c)).toList = (reprComparison c).toList from rfl]
  rw [stripOperationHeads_noLit _ hnolc]
  have s2 : rewriteComparisons (reprComparison c).toList =
      (renderComparison c).toList := by
    have h := rewriteComparisons_repr c [] ha hv
    simpa [rewriteComparisons_nil] using h
  rw [s2,
    removeChar_id '[' _ (fun ch hc => (hchars ch hc).2.2.1),
    removeChar_id ']' _ (fun ch hc => (hchars ch hc).2.2.2)]
  have h7 : replaceParenComma (renderComparison c).toList =
      (renderComparison c).toList := by
    have h := replaceParenComma_append (renderComparison c).toList
      (fun ch hc => (hchars ch hc).2.1) []
    simpa [show replaceParenComma [] = [] from rfl] using h
  rw [h7]
  exact stripParens_no_paren _
    (fun ch hc => by simp [isParenChar, (hchars ch hc).1, (hchars ch hc).2.1])

set_option maxRecDepth 10000 in
/-- C7 counterexample: a two-clause conjunction is displayed with its comparisons
rendered `field = 'value'` but joined by `", "` — the display string contains neither
`"AND"` nor the `" E "` the dead `"),"` replacement would produce. -/
theorem c7_counterexample_clauses_joined_by_comma :
    _format_filter_for_display (some (.operation .andOp twoClauses)) =
      "status_atual = 'VIGENTE', data_status_ano = '2014'" ∧
    noLit "AND".toList
      (_format_filter_for_display (some (.operation .andOp twoClauses))).toList
        = true ∧
    noLit " E ".toList
      (_format_filter_for_display (some (.operation .andOp twoClauses))).toList
        = true :=
  ⟨by decide, by decide, by decide⟩

/-- C7 amended: for a structured query whose filter is a conjunction of comparisons
with clean attribute/value strings (no apostrophes, parentheses or brackets; the
operation literal not occurring in the rendered arguments), the displayed filter
renders each comparison as `field = 'value'` with the operator-object notation
stripped, and joins multiple clauses with `", "` (not `"AND"`); a bare comparison is
displayed as `field = 'value'`. -/
theorem c7_filter_display :
    (∀ cs : List FilterComparison, cs ≠ [] →
      (∀ x ∈ cs, cleanStr x.attr = true ∧ cleanStr x.value = true) →
      noLit opHeadPat ("[" ++ reprArgsJoin cs ++ "])").toList = true →
      _format_filter_for_display (some (.operation .andOp cs)) = displayClauses cs) ∧
    (∀ c : FilterComparison, cleanStr c.attr = true → cleanStr c.value = true →
      noLit opHeadPat (reprComparison c).toList = true →
      _format_filter_for_display (some (.comparison c)) = renderComparison c) := by
  constructor
  · intro cs hcs hclean hnol
    have hD := displayPipeline_operation cs hcs hclean hnol
    have hne := displayClauses_toList_ne_nil cs hcs
    show (if displayPipeline (.operation .andOp cs) = []
      then "Nenhum filtro aplicado."
      else String.mk (displayPipeline (.operation .andOp cs))) = displayClauses cs
    rw [hD, if_neg hne]
    rfl
  · intro c ha hv hnolc
    have hD := displayPipeline_comparison c ha hv hnolc
    have hne := renderComparison_toList_ne_nil c
    show (if displayPipeline (.comparison c) = []
      then "Nenhum filtro aplicado."
      else String.mk (displayPipeline (.comparison c))) = renderComparison c
    rw [hD, if_neg hne]
    rfl

set_option maxRecDepth 10000 in
/-- Witness for C7 at concrete clean filters. -/
theorem c7_filter_display_witness :
    (twoClauses ≠ [] ∧
     (∀ x ∈ twoClauses, cleanStr x.attr = true ∧ cleanStr x.value = true) ∧
     noLit opHeadPat ("[" ++ reprArgsJoin twoClauses ++ "])").toList = true ∧
     cleanStr singleClause.attr = true ∧ cleanStr singleClause.value = true ∧
     noLit opHeadPat (reprComparison singleClause).toList = true) ∧
    _format_filter_for_display (some (.operation .andOp twoClauses)) =
      displayClauses twoClauses ∧
    _format_filter_for_display (some (.comparison singleClause)) =
      renderComparison singleClause :=
  ⟨⟨by decide, by decide, by decide, by decide, by decide, by decide⟩,
   c7_filter_display.1 twoClauses (by decide) (by decide) (by decide),
   c7_filter_display.2 singleClause (by decide) (by decide) (by decide)⟩

end Rag
